import Mathlib

/-!
Verification of the tick-data cleaning and OHLCV aggregation pipeline
(`main.py`).  Strings are modelled as lists of characters (`Str`), Python
floats as exact rationals (the only float operations the program performs on
prices are parsing, comparison, `max`/`min`, so finite decimal literals are
represented exactly), and Python's arbitrary-precision integers as `Int`.
Cleaned records carry their timestamp string, which is the program's sort
key; parsed `datetime` values and `timedelta`s are modelled as integer
microsecond counts (both have microsecond resolution; comparison and
addition on them coincide with the integer operations).
-/

abbrev Str := List Char

/-- Numeric value of a list of decimal digit characters. -/
def natOf (ds : Str) : ℕ :=
  ds.foldl (fun a c => 10 * a + (c.toNat - '0'.toNat)) 0

/-- Leap-year rule used by `datetime` (proleptic Gregorian calendar). -/
def isLeap (y : ℕ) : Bool :=
  (y % 4 == 0 && y % 100 != 0) || y % 400 == 0

/-- Number of days of month `m` in year `y`, as validated by `datetime`. -/
def daysInMonth (y m : ℕ) : ℕ :=
  if m = 2 then (if isLeap y then 29 else 28)
  else if m = 4 || m = 6 || m = 9 || m = 11 then 30
  else 31

/-- `datetime.strptime(s, "%Y-%m-%d %H:%M:%S.%f")` succeeds on `s`.
Follows CPython `_strptime`: `%Y` is exactly four digits, `%m`/`%d`/`%H`/
`%M`/`%S` are one or two digits within range, the literal space matches a
nonempty whitespace run, `%f` is one to six digits, nothing may remain
after the match, and the resulting field values must form a valid
`datetime` (year ≥ 1, day valid for the month, second ≤ 59). -/
def tsValid (l : Str) : Bool :=
  let p := l.span Char.isDigit
  let y := p.1
  if y.length ≠ 4 then false else
  if natOf y = 0 then false else
  match p.2 with
  | '-' :: r1 =>
    let pm := r1.span Char.isDigit
    let mo := pm.1
    if mo.length = 0 || 2 < mo.length then false else
    if natOf mo = 0 || 12 < natOf mo then false else
    match pm.2 with
    | '-' :: r2 =>
      let pd := r2.span Char.isDigit
      let d := pd.1
      if d.length = 0 || 2 < d.length then false else
      if natOf d = 0 || daysInMonth (natOf y) (natOf mo) < natOf d then false else
      match pd.2 with
      | c :: r3 =>
        if ¬ c.isWhitespace then false else
        let r4 := r3.dropWhile Char.isWhitespace
        let ph := r4.span Char.isDigit
        let hh := ph.1
        if hh.length = 0 || 2 < hh.length then false else
        if 23 < natOf hh then false else
        match ph.2 with
        | ':' :: r5 =>
          let pmi := r5.span Char.isDigit
          let mi := pmi.1
          if mi.length = 0 || 2 < mi.length then false else
          if 59 < natOf mi then false else
          match pmi.2 with
          | ':' :: r6 =>
            let ps := r6.span Char.isDigit
            let ss := ps.1
            if ss.length = 0 || 2 < ss.length then false else
            if 59 < natOf ss then false else
            match ps.2 with
            | '.' :: r7 =>
              r7.all Char.isDigit && r7.length ≠ 0 && r7.length ≤ 6
            | _ => false
          | _ => false
        | _ => false
      | _ => false
    | _ => false
  | _ => false

/-- Sign characters accepted by Python numeric constructors. -/
def signVal (l : Str) : (ℤ × Str) :=
  match l with
  | '+' :: r => (1, r)
  | '-' :: r => (-1, r)
  | _ => (1, l)

/-- Strip leading and trailing whitespace (Python `str.strip` semantics on
the whitespace characters that occur in this data). -/
def pyStrip (l : Str) : Str :=
  ((l.dropWhile Char.isWhitespace).reverse.dropWhile Char.isWhitespace).reverse

/-- `float(s)` for a finite decimal or scientific literal, as an exact
rational: optional surrounding whitespace and sign, an integer part and/or
a fractional part, and an optional exponent.  (Python would round the
value to the nearest double; the comparisons the program performs are
modelled on the exact value.) -/
def parseFloat (l : Str) : Option ℚ :=
  let s := pyStrip l
  let sg := signVal s
  let ip := sg.2.span Char.isDigit
  let intDs := ip.1
  let fr :=
    match ip.2 with
    | '.' :: r => (r.span Char.isDigit).1
    | _ => []
  let rest1 :=
    match ip.2 with
    | '.' :: r => (r.span Char.isDigit).2
    | r => r
  if intDs.length = 0 ∧ fr.length = 0 then none else
  let mant : ℚ := (natOf intDs : ℚ) + (natOf fr : ℚ) / (10 : ℚ) ^ fr.length
  match rest1 with
  | [] => some (sg.1 * mant)
  | 'e' :: r =>
    let esg := signVal r
    let ed := esg.2.span Char.isDigit
    if ed.1.length = 0 || ed.2 ≠ [] then none
    else some (sg.1 * (if esg.1 = 1 then mant * (10 : ℚ) ^ natOf ed.1
                       else mant / (10 : ℚ) ^ natOf ed.1))
  | 'E' :: r =>
    let esg := signVal r
    let ed := esg.2.span Char.isDigit
    if ed.1.length = 0 || ed.2 ≠ [] then none
    else some (sg.1 * (if esg.1 = 1 then mant * (10 : ℚ) ^ natOf ed.1
                       else mant / (10 : ℚ) ^ natOf ed.1))
  | _ => none

/-- `int(s)`: optional surrounding whitespace, optional sign, a nonempty
digit string and nothing else. -/
def parseInt (l : Str) : Option ℤ :=
  let s := pyStrip l
  let sg := signVal s
  let p := sg.2.span Char.isDigit
  if p.1.length = 0 || p.2 ≠ [] then none
  else some (sg.1 * (natOf p.1 : ℤ))

/-- A cleaned record as returned by `clean_and_validate_row`: the original
timestamp string, the parsed price, the parsed size. -/
abbrev CleanRow := Str × ℚ × ℤ

/-- `clean_and_validate_row(row, unique_timestamps)`.  Returns the pair
`(cleaned-or-none, errors)` together with the updated per-file timestamp
set (the Python function mutates the set in place).  The checks and the
error strings follow the source order exactly; note that the timestamp is
added to the set before the price and size checks run. -/
def clean_and_validate_row (row : List Str) (uniq : Finset Str) :
    (Option CleanRow × List String) × Finset Str :=
  match row with
  | [timestamp, price, size] =>
    if timestamp = [] then ((none, ["Missing timestamp"]), uniq)
    else if tsValid timestamp then
      if timestamp ∈ uniq then ((none, ["Duplicate timestamp"]), uniq)
      else
        let uniq' := insert timestamp uniq
        match parseFloat price with
        | none => ((none, ["Invalid price value"]), uniq')
        | some p =>
          if p ≤ 0 then ((none, ["Price must be positive"]), uniq')
          else if p < 100 then ((none, ["Price too low (below 100)"]), uniq')
          else
            match parseInt size with
            | none => ((none, ["Invalid size value"]), uniq')
            | some sz =>
              if sz < 0 then ((none, ["Size must be non-negative"]), uniq')
              else ((some (timestamp, p, sz), []), uniq')
    else ((none, ["Invalid timestamp format"]), uniq)
  | _ => ((none, ["Incorrect number of columns"]), uniq)

/-- The body of `process_file` once the rows of the file have been read:
a fresh empty timestamp set is threaded through `clean_and_validate_row`
row by row, collecting `(cleaned_row, errors, row)` triples. -/
def process_rows (uniq : Finset Str) :
    List (List Str) → List (Option CleanRow × List String × List Str)
  | [] => []
  | row :: rest =>
    let res := clean_and_validate_row row uniq
    (res.1.1, res.1.2, row) :: process_rows res.2 rest

/-- `process_file`, abstracted over the row source: starts from an empty
`unique_timestamps` set. -/
def process_file (rows : List (List Str)) :
    List (Option CleanRow × List String × List Str) :=
  process_rows ∅ rows

/-- The closed set of row-rejection messages produced by
`clean_and_validate_row`. -/
def rejection_reasons : List String :=
  ["Incorrect number of columns", "Missing timestamp",
   "Invalid timestamp format", "Duplicate timestamp",
   "Invalid price value", "Price must be positive",
   "Price too low (below 100)", "Invalid size value",
   "Size must be non-negative"]

/-- Python `str.split(sep)` for a one-character separator. -/
def pySplit (sep : Char) : Str → List Str
  | [] => [[]]
  | c :: r =>
    if c = sep then [] :: pySplit sep r
    else
      match pySplit sep r with
      | p :: ps => (c :: p) :: ps
      | [] => [[c]]

/-- One unit branch of `parse_interval`: if the unit letter occurs in the
string, split on it, parse the leading component with `int` (a failure
propagates as the `ValueError` the caller catches), and continue with the
part after the first separator; otherwise the component is `0` and the
string is unchanged. -/
def intervalStep (unit : Char) (s : Str) : Option (ℤ × Str) :=
  if s.contains unit then
    let parts := pySplit unit s
    match parseInt (parts.headD []) with
    | none => none
    | some v => some (v, if 1 < parts.length then parts.getD 1 [] else [])
  else some (0, s)

/-- `parse_interval(interval_str)`: the total duration of
`timedelta(days, hours, minutes, seconds)` in microseconds, or `none` when
one of the `int` conversions raises `ValueError`. -/
def parse_interval (s0 : Str) : Option ℤ :=
  match intervalStep 'd' s0 with
  | none => none
  | some dr =>
    match intervalStep 'h' dr.2 with
    | none => none
    | some hr =>
      match intervalStep 'm' hr.2 with
      | none => none
      | some mr =>
        match intervalStep 's' mr.2 with
        | none => none
        | some sr =>
          some ((dr.1 * 86400 + hr.1 * 3600 + mr.1 * 60 + sr.1) * 1000000)

/-- The acceptance test of `get_interval_input`: a candidate string is
returned when it parses to a nonzero duration, and re-prompted (`none`)
when `parse_interval` raises or yields `timedelta(0)`. -/
def interval_input_accept (s : Str) : Option ℤ :=
  match parse_interval s with
  | none => none
  | some v => if v = 0 then none else some v

/-- Day count of the proleptic Gregorian calendar before January 1 of
year `y` (`datetime.toordinal` semantics, counting from year 1). -/
def daysBeforeYear (y : ℕ) : ℕ :=
  365 * (y - 1) + (y - 1) / 4 - (y - 1) / 100 + (y - 1) / 400

/-- Days of year `y` that precede month `m`. -/
def daysBeforeMonth (y m : ℕ) : ℕ :=
  [0, 31, 59, 90, 120, 151, 181, 212, 243, 273, 304, 334].getD (m - 1) 0 +
    (if 2 < m ∧ isLeap y then 1 else 0)

/-- Value of a timestamp accepted by `tsValid`, as microseconds since
0001-01-01 00:00:00 (the instant `datetime.min`): `datetime` comparison
and `datetime`/`timedelta` arithmetic coincide with the integer
operations on these counts.  The fields are extracted exactly as the
format lays them out, and the fraction is right-padded to six digits as
`_strptime` does.  On a string `tsValid` rejects — which the program
never feeds to the aggregation loop — the value is meaningless. -/
def tsVal (l : Str) : ℤ :=
  let py := l.span Char.isDigit
  let pm := (py.2.drop 1).span Char.isDigit
  let pd := (pm.2.drop 1).span Char.isDigit
  let ph := (pd.2.dropWhile Char.isWhitespace).span Char.isDigit
  let pmi := (ph.2.drop 1).span Char.isDigit
  let ps := (pmi.2.drop 1).span Char.isDigit
  let f := (ps.2.drop 1).takeWhile Char.isDigit
  ((((((daysBeforeYear (natOf py.1) + daysBeforeMonth (natOf py.1) (natOf pm.1) +
        (natOf pd.1 - 1)) * 24 + natOf ph.1) * 60 + natOf pmi.1) * 60 +
        natOf ps.1) * 1000000 + natOf f * 10 ^ (6 - f.length) : ℕ) : ℤ)

/-- A cleaned record as consumed by `aggregate_ohlcv`, exactly as
`clean_and_validate_row` returns it: the timestamp string, the parsed
price, the parsed size.  The string is kept because the program sorts by
it (`data.sort(key=lambda x: x[0])`) and only parses it inside the loop;
for non-zero-padded timestamps, which `strptime` accepts, the string
order and the chronological order differ. -/
abbrev CRec := Str × ℚ × ℤ

/-- A float-valued OHLC field: finite value or one of the `float('-inf')` /
`float('inf')` sentinels the aggregator starts from. -/
inductive XF where
  | ninf : XF
  | pinf : XF
  | fin : ℚ → XF
deriving DecidableEq

/-- `max` against a price, as the aggregator applies it to `high`. -/
def maxXF : XF → ℚ → XF
  | XF.ninf, p => XF.fin p
  | XF.pinf, _ => XF.pinf
  | XF.fin q, p => XF.fin (max q p)

/-- `min` against a price, as the aggregator applies it to `low`. -/
def minXF : XF → ℚ → XF
  | XF.ninf, _ => XF.ninf
  | XF.pinf, p => XF.fin p
  | XF.fin q, p => XF.fin (min q p)

/-- One OHLCV bar (`current_ohlcv` dictionary). -/
structure Bar where
  opn : Option ℚ
  high : XF
  low : XF
  close : Option ℚ
  volume : ℤ
deriving DecidableEq

/-- The initial `current_ohlcv` value. -/
def initBar : Bar := ⟨none, XF.ninf, XF.pinf, none, 0⟩

/-- Lines 137-142 of the loop body: update the open bar with one record. -/
def updBar (b : Bar) (p : ℚ) (sz : ℤ) : Bar :=
  { opn := match b.opn with | none => some p | some q => some q
    high := maxXF b.high p
    low := minXF b.low p
    close := some p
    volume := b.volume + sz }

/-- Python dict assignment `d[k] = v` on an insertion-ordered association
list: overwrite in place if the key is present, else append. -/
def dinsert (k : ℤ) (v : Bar) : List (ℤ × Bar) → List (ℤ × Bar)
  | [] => [(k, v)]
  | (k', v') :: rest =>
    if k' = k then (k, v) :: rest else (k', v') :: dinsert k v rest

/-- The loop state of `aggregate_ohlcv`: the `ohlcv_data` dict, the
`interval_start` variable (a parsed timestamp), and the `current_ohlcv`
bar. -/
structure AggSt where
  table : List (ℤ × Bar)
  istart : Option ℤ
  cur : Bar

/-- The loop body for an in-window record, whose timestamp has been
parsed (line 121) to `tsVal r.1`: set `interval_start` if unset, seal the
current bar and start a new interval when the parsed timestamp reaches
`interval_start + interval`, then update the open bar. -/
def stepIn (i : ℤ) (st : AggSt) (r : CRec) : AggSt :=
  if (st.istart.getD (tsVal r.1)) + i ≤ tsVal r.1 then
    ⟨dinsert (st.istart.getD (tsVal r.1)) st.cur st.table, some (tsVal r.1),
     updBar initBar r.2.1 r.2.2⟩
  else
    ⟨st.table, some (st.istart.getD (tsVal r.1)), updBar st.cur r.2.1 r.2.2⟩

/-- The window test of line 123: `timestamp < start_time or
timestamp > end_time` skips the record. -/
def skipB (s e ts : ℤ) : Bool := decide (ts < s) || decide (e < ts)

/-- The full loop body: parse the record's timestamp, skip it when it
falls outside the window, else run `stepIn`. -/
def step (i s e : ℤ) (st : AggSt) (r : CRec) : AggSt :=
  if skipB s e (tsVal r.1) then st else stepIn i st r

/-- In-window test on a record (negation of the skip condition). -/
def inWb (s e : ℤ) (r : CRec) : Bool := ! skipB s e (tsVal r.1)

/-- Lexicographic comparison of strings by code point, as Python compares
`str` values. -/
def strLEb : Str → Str → Bool
  | [], _ => true
  | _ :: _, [] => false
  | a :: as, b :: bs =>
    if a.toNat < b.toNat then true
    else if b.toNat < a.toNat then false
    else strLEb as bs

/-- Sort key order of `data.sort(key=lambda x: x[0])`: the timestamp
string, compared lexicographically.  (For non-zero-padded timestamps
this is not the chronological order.) -/
def tsLE (a b : CRec) : Prop := strLEb a.1 b.1 = true

instance : DecidableRel tsLE :=
  fun a b => inferInstanceAs (Decidable (strLEb a.1 b.1 = true))

instance : IsTotal CRec tsLE := ⟨by
  have h : ∀ x y : Str, strLEb x y = true ∨ strLEb y x = true := by
    intro x
    induction x with
    | nil => intro y; left; rfl
    | cons a as ih =>
      intro y
      cases y with
      | nil => right; rfl
      | cons b bs =>
        simp only [strLEb]
        rcases ih bs with h3 | h3 <;>
          by_cases h1 : a.toNat < b.toNat <;> by_cases h2 : b.toNat < a.toNat <;>
            simp [h1, h2, h3]
  exact fun a b => h a.1 b.1⟩

instance : IsTrans CRec tsLE := ⟨by
  have h : ∀ x y z : Str, strLEb x y = true → strLEb y z = true →
      strLEb x z = true := by
    intro x
    induction x with
    | nil => intro y z _ _; rfl
    | cons a as ih =>
      intro y z hxy hyz
      cases y with
      | nil => simp [strLEb] at hxy
      | cons b bs =>
        cases z with
        | nil => simp [strLEb] at hyz
        | cons c cs =>
          simp only [strLEb] at hxy hyz ⊢
          split_ifs at hxy hyz ⊢ <;>
            first
            | rfl
            | omega
            | exact ih bs cs hxy hyz
            | simp at hxy
            | simp at hyz
  exact fun a b c hab hbc => h a.1 b.1 c.1 hab hbc⟩

/-- The stable sort performed on `data`, keyed by the timestamp string
(Python `list.sort` is stable; insertion sort with this insertion rule is
the same stable permutation). -/
def sortByTs (l : List CRec) : List CRec := l.insertionSort tsLE

/-- Lines 174-176: seal the last bar when it has received a record
(`current_ohlcv['open'] is not None`).  When the final seal happens,
`interval_start` is necessarily set (proved below); the `getD 0` default
is unreachable. -/
def sealLast (st : AggSt) : List (ℤ × Bar) :=
  match st.cur.opn with
  | some _ => dinsert (st.istart.getD 0) st.cur st.table
  | none => st.table

/-- `aggregate_ohlcv(data, interval, start_time, end_time)`: sort by
timestamp string, fold the loop body over the records, then seal the
last bar. -/
def aggregate_ohlcv (data : List CRec) (i s e : ℤ) : List (ℤ × Bar) :=
  sealLast ((sortByTs data).foldl (step i s e) ⟨[], none, initBar⟩)

/-- The bar obtained by folding the update of lines 137-142 over a list of
records, starting from the fresh `current_ohlcv`. -/
def mkBar (recs : List CRec) : Bar :=
  recs.foldl (fun b r => updBar b r.2.1 r.2.2) initBar

/-- The records of `l` whose parsed timestamp lies in `[k, k + i)` — the
chronological reading of "the records assigned to the interval starting
at `k`".  The loop's actual assignment follows the string-sorted
processing order, which differs from this span for non-zero-padded
timestamps (see `ohlcv_bar_fields_cex`). -/
def spanRecs (i k : ℤ) (l : List CRec) : List CRec :=
  l.filter (fun r => decide (k ≤ tsVal r.1 ∧ tsVal r.1 < k + i))

/-- Loop invariant of `aggregate_ohlcv`: after the in-window records `P`
(a prefix of the string-sorted in-window sequence) have been processed:
the `interval_start` variable is unset only at the very start; when an
interval is open, the records assigned to it form a nonempty suffix
`run` of `P` whose first record parses to `interval_start` and whose
records all parse strictly below `interval_start + interval`, and the
open bar is the fold of the updates over `run`; every sealed bar of the
table is likewise the fold over its own nonempty contiguous run of `P`;
table keys are fresh and advance by at least one interval per seal. -/
structure InvSt (i : ℤ) (P : List CRec) (st : AggSt) : Prop where
  none_case : st.istart = none → st.table = [] ∧ st.cur = initBar ∧ P = []
  cur_case : ∀ kc, st.istart = some kc → ∃ done run, P = done ++ run ∧
      run ≠ [] ∧ st.cur = mkBar run ∧
      (∃ h0, run.head? = some h0 ∧ tsVal h0.1 = kc) ∧
      ∀ r ∈ run, tsVal r.1 < kc + i
  key_new : ∀ kc, st.istart = some kc → ∀ b, (kc, b) ∉ st.table
  keys_lt : ∀ kc, st.istart = some kc → ∀ k b, (k, b) ∈ st.table → k + i ≤ kc
  tab_case : ∀ k b, (k, b) ∈ st.table → ∃ run, run ≠ [] ∧ b = mkBar run ∧
      run <:+: P ∧ (∃ h0, run.head? = some h0 ∧ tsVal h0.1 = k) ∧
      ∀ r ∈ run, tsVal r.1 < k + i


/-- C1: On the cleaned records 09:30:05 (price 100, size 1), 09:30:50
(price 105, size 2), 09:31:10 (price 102, size 3) of 2024-01-01, with a
1-minute interval and the window [09:30:00, 09:32:00], `aggregate_ohlcv`
produces exactly the two bars of the spec: key 09:30:05 with open 100,
high 105, low 100, close 105, volume 3, and key 09:31:10 with all prices
102 and volume 3. -/
theorem ohlcv_sample_scenario_B :
    aggregate_ohlcv
        [("2024-01-01 09:30:05.000000".data, 100, 1),
         ("2024-01-01 09:30:50.000000".data, 105, 2),
         ("2024-01-01 09:31:10.000000".data, 102, 3)]
        60000000
        (tsVal "2024-01-01 09:30:00.000000".data)
        (tsVal "2024-01-01 09:32:00.000000".data) =
      [(tsVal "2024-01-01 09:30:05.000000".data,
        ⟨some 100, XF.fin 105, XF.fin 100, some 105, 3⟩),
       (tsVal "2024-01-01 09:31:10.000000".data,
        ⟨some 102, XF.fin 102, XF.fin 102, some 102, 3⟩)] := by
  decide

/-- C4: duplicate-timestamp rejection is scoped to one file.  For any
two otherwise-valid rows carrying the identical timestamp: within one
file the first is accepted and the second rejected with the duplicate
message, while the same two rows presented as two separate files (each
`process_file` call starts from a fresh empty duplicate set) are both
accepted.  The spec's concrete scenario A is stated alongside. -/
theorem duplicate_scope_per_file :
    (∀ t p1 s1 p2 s2, t ≠ [] → tsValid t = true →
      ∀ q1 z1 q2 z2, parseFloat p1 = some q1 → 0 < q1 → 100 ≤ q1 →
        parseInt s1 = some z1 → 0 ≤ z1 →
        parseFloat p2 = some q2 → 0 < q2 → 100 ≤ q2 →
        parseInt s2 = some z2 → 0 ≤ z2 →
        process_file [[t, p1, s1], [t, p2, s2]] =
          [(some (t, q1, z1), [], [t, p1, s1]),
           (none, ["Duplicate timestamp"], [t, p2, s2])] ∧
        process_file [[t, p1, s1]] = [(some (t, q1, z1), [], [t, p1, s1])] ∧
        process_file [[t, p2, s2]] = [(some (t, q2, z2), [], [t, p2, s2])]) := by
  intro t p1 s1 p2 s2 hne htv q1 z1 q2 z2 hq1 h01 h1001 hz1 hz1n hq2 h02 h1002 hz2 hz2n
  have hrow1 : ∀ u : Finset Str, t ∉ u →
      clean_and_validate_row [t, p1, s1] u = ((some (t, q1, z1), []), insert t u) := by
    intro u hu
    unfold clean_and_validate_row
    simp [hne, htv, hu, hq1, not_le.mpr h01, not_lt.mpr h1001, hz1, not_lt.mpr hz1n]
  have hrow2 : ∀ u : Finset Str, t ∉ u →
      clean_and_validate_row [t, p2, s2] u = ((some (t, q2, z2), []), insert t u) := by
    intro u hu
    unfold clean_and_validate_row
    simp [hne, htv, hu, hq2, not_le.mpr h02, not_lt.mpr h1002, hz2, not_lt.mpr hz2n]
  have hdup : clean_and_validate_row [t, p2, s2] ({t} : Finset Str) =
      ((none, ["Duplicate timestamp"]), ({t} : Finset Str)) := by
    unfold clean_and_validate_row
    simp [hne, htv, Finset.mem_singleton_self]
  refine ⟨?_, ?_, ?_⟩
  · simp [process_file, process_rows, hrow1 ∅ (Finset.not_mem_empty t), hdup]
  · simp [process_file, process_rows, hrow1 ∅ (Finset.not_mem_empty t)]
  · simp [process_file, process_rows, hrow2 ∅ (Finset.not_mem_empty t)]

unseal Rat.mul Rat.add Rat.inv Rat.sub Rat.ofScientific in
theorem duplicate_scope_per_file_witness :
    process_file
        [["2024-01-01 09:30:00.000000".data, "150.25".data, "10".data],
         ["2024-01-01 09:30:00.000000".data, "151.00".data, "5".data]] =
      [(some ("2024-01-01 09:30:00.000000".data, 150.25, 10), [],
        ["2024-01-01 09:30:00.000000".data, "150.25".data, "10".data]),
       (none, ["Duplicate timestamp"],
        ["2024-01-01 09:30:00.000000".data, "151.00".data, "5".data])] ∧
    process_file
        [["2024-01-01 09:30:00.000000".data, "150.25".data, "10".data]] =
      [(some ("2024-01-01 09:30:00.000000".data, 150.25, 10), [],
        ["2024-01-01 09:30:00.000000".data, "150.25".data, "10".data])] ∧
    process_file
        [["2024-01-01 09:30:00.000000".data, "151.00".data, "5".data]] =
      [(some ("2024-01-01 09:30:00.000000".data, 151, 5), [],
        ["2024-01-01 09:30:00.000000".data, "151.00".data, "5".data])] :=
  duplicate_scope_per_file "2024-01-01 09:30:00.000000".data
    "150.25".data "10".data "151.00".data "5".data (by decide) (by decide)
    150.25 10 151 5 (by decide) (by decide) (by decide) (by decide) (by decide)
    (by decide) (by decide) (by decide) (by decide) (by decide)

/-- C5: the aggregation window is inclusive at both endpoints: a record
whose parsed timestamp equals `start_time` or `end_time` is processed by
the loop body (`stepIn`), and a record strictly before the start or
strictly after the end leaves the state unchanged. -/
theorem window_inclusive_bounds (i s e : ℤ) (st : AggSt) (t : Str) (p : ℚ) (sz : ℤ) :
    (s ≤ e → tsVal t = s ∨ tsVal t = e →
      step i s e st (t, p, sz) = stepIn i st (t, p, sz)) ∧
    (tsVal t < s ∨ e < tsVal t → step i s e st (t, p, sz) = st) := by
  constructor
  · intro hse hts
    have h : skipB s e (tsVal t) = false := by
      simp only [skipB, Bool.or_eq_false_iff, decide_eq_false_iff_not]
      omega
    simp [step, h]
  · intro hts
    have h : skipB s e (tsVal t) = true := by
      simp only [skipB, Bool.or_eq_true, decide_eq_true_eq]
      omega
    simp [step, h]

theorem window_inclusive_bounds_witness :
    ((0:ℤ) ≤ 5 ∧ tsVal "0001-01-01 00:00:00.000000".data = 0 ∧
      step 1 0 5 ⟨[], none, initBar⟩
          ("0001-01-01 00:00:00.000000".data, (100:ℚ), (1:ℤ)) =
        stepIn 1 ⟨[], none, initBar⟩
          ("0001-01-01 00:00:00.000000".data, 100, 1)) ∧
    ((5:ℤ) < tsVal "0001-01-01 00:00:06.000000".data ∧
      step 1 0 5 ⟨[], none, initBar⟩
          ("0001-01-01 00:00:06.000000".data, (100:ℚ), (1:ℤ)) =
        ⟨[], none, initBar⟩) :=
  ⟨⟨by decide, by decide,
    (window_inclusive_bounds 1 0 5 ⟨[], none, initBar⟩
        "0001-01-01 00:00:00.000000".data 100 1).1
      (by decide) (Or.inl (by decide))⟩,
   ⟨by decide,
    (window_inclusive_bounds 1 0 5 ⟨[], none, initBar⟩
        "0001-01-01 00:00:06.000000".data 100 1).2
      (Or.inr (by decide))⟩⟩

/-- C6: `parse_interval` maps `"2h30m"` to exactly 2 hours 30 minutes
(9000 seconds, in microseconds), and the interval-input validation
rejects `"0s"` (zero duration) and every string whose parse fails or
yields a zero duration. -/
theorem interval_scenario_C :
    parse_interval "2h30m".data = some 9000000000 ∧
    interval_input_accept "0s".data = none ∧
    (∀ s, parse_interval s = none → interval_input_accept s = none) ∧
    (∀ s, parse_interval s = some 0 → interval_input_accept s = none) := by
  refine ⟨by decide, by decide, ?_, ?_⟩ <;>
    intro s h <;> simp [interval_input_accept, h]

theorem interval_scenario_C_witness :
    (parse_interval "am".data = none ∧ interval_input_accept "am".data = none) ∧
    (parse_interval "x".data = some 0 ∧ interval_input_accept "x".data = none) :=
  ⟨⟨by decide, interval_scenario_C.2.2.1 "am".data (by decide)⟩,
   ⟨by decide, interval_scenario_C.2.2.2 "x".data (by decide)⟩⟩

/-- C10: the interval-input validation rejects exactly the parse failures
and the zero duration; every nonzero parsed duration is accepted and
returned as-is, including negative ones such as `"-5m"`, which is passed
on despite the aggregator's strictly-positive-interval precondition. -/
theorem interval_accepts_any_nonzero :
    (∀ s, interval_input_accept s = none ↔
        (parse_interval s = none ∨ parse_interval s = some 0)) ∧
    (∀ s v, parse_interval s = some v → v ≠ 0 → interval_input_accept s = some v) ∧
    parse_interval "-5m".data = some (-300000000) ∧
    interval_input_accept "-5m".data = some (-300000000) := by
  refine ⟨?_, ?_, by decide, by decide⟩
  · intro s
    cases h : parse_interval s with
    | none => simp [interval_input_accept, h]
    | some v =>
      by_cases hv : v = 0 <;> simp [interval_input_accept, h, hv]
  · intro s v h hv
    simp [interval_input_accept, h, hv]

theorem interval_accepts_any_nonzero_witness :
    interval_input_accept "-5m".data = some (-300000000) :=
  interval_accepts_any_nonzero.2.1 "-5m".data (-300000000) (by decide) (by decide)

/-- C3: on every raw row and duplicate set, `clean_and_validate_row`
returns either one cleaned record with an empty error list, or no record
with a single-element error list drawn from the nine closed rejection
reasons; the short-circuiting checks never produce more than one reason,
and never a record together with an error. -/
theorem validate_single_reason_or_clean (row : List Str) (uniq : Finset Str) :
    (∃ rec, (clean_and_validate_row row uniq).1 = (some rec, [])) ∨
    (∃ m, m ∈ rejection_reasons ∧ (clean_and_validate_row row uniq).1 = (none, [m])) := by
  unfold clean_and_validate_row
  rcases row with _ | ⟨a, _ | ⟨b, _ | ⟨c, _ | ⟨d, tl⟩⟩⟩⟩
  · right; exact ⟨"Incorrect number of columns", by decide, rfl⟩
  · right; exact ⟨"Incorrect number of columns", by decide, rfl⟩
  · right; exact ⟨"Incorrect number of columns", by decide, rfl⟩
  · by_cases h1 : a = []
    · right; exact ⟨"Missing timestamp", by decide, by simp [h1]⟩
    · by_cases h2 : tsValid a
      · by_cases h3 : a ∈ uniq
        · right; exact ⟨"Duplicate timestamp", by decide, by simp [h1, h2, h3]⟩
        · rcases h4 : parseFloat b with _ | p
          · right; exact ⟨"Invalid price value", by decide, by simp [h1, h2, h3, h4]⟩
          · by_cases h5 : p ≤ 0
            · right
              exact ⟨"Price must be positive", by decide, by simp [h1, h2, h3, h4, h5]⟩
            · by_cases h6 : p < 100
              · right
                exact ⟨"Price too low (below 100)", by decide,
                  by simp [h1, h2, h3, h4, h5, h6]⟩
              · rcases h7 : parseInt c with _ | sz
                · right
                  exact ⟨"Invalid size value", by decide,
                    by simp [h1, h2, h3, h4, h5, h6, h7]⟩
                · by_cases h8 : sz < 0
                  · right
                    exact ⟨"Size must be non-negative", by decide,
                      by simp [h1, h2, h3, h4, h5, h6, h7, h8]⟩
                  · left; exact ⟨(a, p, sz), by simp [h1, h2, h3, h4, h5, h6, h7, h8]⟩
      · right; exact ⟨"Invalid timestamp format", by decide, by simp [h1, h2]⟩
  · right; exact ⟨"Incorrect number of columns", by decide, rfl⟩

theorem foldl_step_filter (i s e : ℤ) (l : List CRec) (st : AggSt) :
    l.foldl (step i s e) st = (l.filter (inWb s e)).foldl (stepIn i) st := by
  induction l generalizing st with
  | nil => rfl
  | cons r l ih =>
    cases h : skipB s e (tsVal r.1) with
    | false => simp [List.filter_cons, inWb, h, step, ih]
    | true => simp [List.filter_cons, inWb, h, step, ih]

theorem mkBar_append_one (l : List CRec) (x : CRec) :
    mkBar (l ++ [x]) = updBar (mkBar l) x.2.1 x.2.2 := by
  simp [mkBar, List.foldl_append]

theorem dinsert_not_mem (k : ℤ) (v : Bar) (t : List (ℤ × Bar))
    (h : ∀ b, (k, b) ∉ t) : dinsert k v t = t ++ [(k, v)] := by
  induction t with
  | nil => rfl
  | cons p t ih =>
    obtain ⟨k', v'⟩ := p
    have hk : k' ≠ k := by
      intro he; exact h v' (by rw [he] at *; exact List.mem_cons_self _ _)
    simp [dinsert, hk, ih (fun b hb => h b (List.mem_cons_of_mem _ hb))]

theorem inv_step (i : ℤ) (hi : 0 < i) (P : List CRec) (r : CRec)
    (st : AggSt) (hInv : InvSt i P st) :
    InvSt i (P ++ [r]) (stepIn i st r) := by
  obtain ⟨tab, ist?, cur⟩ := st
  cases ist? with
  | none =>
    obtain ⟨htab, hcur, hP⟩ := hInv.none_case rfl
    subst hP htab hcur
    have hstep : stepIn i ⟨[], none, initBar⟩ r =
        ⟨[], some (tsVal r.1), updBar initBar r.2.1 r.2.2⟩ := by
      simp only [stepIn, Option.getD_none]
      rw [if_neg (by omega : ¬ (tsVal r.1 + i ≤ tsVal r.1))]
    rw [hstep]
    constructor
    · intro h; simp at h
    · intro kc hkc
      obtain rfl : tsVal r.1 = kc := by simpa using hkc
      refine ⟨[], [r], rfl, by simp, rfl, ⟨r, rfl, rfl⟩, ?_⟩
      intro x hx
      simp only [List.mem_singleton] at hx
      subst hx
      omega
    · intro kc _ b hb; simp at hb
    · intro kc _ k b hb; simp at hb
    · intro k b hb; simp at hb
  | some kc =>
    obtain ⟨done, run, hPdr, hrunne, hcur, ⟨h0, hh0, hh0v⟩, hrun_lt⟩ :=
      hInv.cur_case kc rfl
    have hkey : ∀ b, (kc, b) ∉ tab := hInv.key_new kc rfl
    have hklt : ∀ k b, (k, b) ∈ tab → k + i ≤ kc := hInv.keys_lt kc rfl
    by_cases hseal : kc + i ≤ tsVal r.1
    · have hstep : stepIn i ⟨tab, some kc, cur⟩ r =
          ⟨dinsert kc cur tab, some (tsVal r.1), updBar initBar r.2.1 r.2.2⟩ := by
        simp only [stepIn, Option.getD_some]
        rw [if_pos hseal]
      rw [hstep, dinsert_not_mem kc cur tab hkey]
      constructor
      · intro h; simp at h
      · intro kc' hkc'
        obtain rfl : tsVal r.1 = kc' := by simpa using hkc'
        refine ⟨P, [r], rfl, by simp, rfl, ⟨r, rfl, rfl⟩, ?_⟩
        intro x hx
        simp only [List.mem_singleton] at hx
        subst hx
        omega
      · intro kc' hkc' b hb
        obtain rfl : tsVal r.1 = kc' := by simpa using hkc'
        rcases List.mem_append.mp hb with h | h
        · have := hklt _ _ h; omega
        · simp only [List.mem_singleton, Prod.mk.injEq] at h
          obtain ⟨h1, -⟩ := h
          omega
      · intro kc' hkc' k b hb
        obtain rfl : tsVal r.1 = kc' := by simpa using hkc'
        rcases List.mem_append.mp hb with h | h
        · have := hklt _ _ h; omega
        · simp only [List.mem_singleton, Prod.mk.injEq] at h
          obtain ⟨rfl, -⟩ := h
          omega
      · intro k b hb
        rcases List.mem_append.mp hb with h | h
        · obtain ⟨run', hne', hb', hinf', hhead', hlt'⟩ := hInv.tab_case _ _ h
          exact ⟨run', hne', hb',
            hinf'.trans (List.prefix_append P [r]).isInfix, hhead', hlt'⟩
        · simp only [List.mem_singleton, Prod.mk.injEq] at h
          obtain ⟨rfl, rfl⟩ := h
          refine ⟨run, hrunne, hcur, ?_, ⟨h0, hh0, hh0v⟩, hrun_lt⟩
          exact (List.IsSuffix.isInfix ⟨done, hPdr.symm⟩).trans
            (List.prefix_append P [r]).isInfix
    · have hstep : stepIn i ⟨tab, some kc, cur⟩ r =
          ⟨tab, some kc, updBar cur r.2.1 r.2.2⟩ := by
        simp only [stepIn, Option.getD_some]
        rw [if_neg hseal]
      rw [hstep]
      constructor
      · intro h; simp at h
      · intro kc' hkc'
        obtain rfl : kc = kc' := by simpa using hkc'
        refine ⟨done, run ++ [r], by rw [hPdr, List.append_assoc], by simp, ?_, ?_, ?_⟩
        · rw [mkBar_append_one, ← hcur]
        · refine ⟨h0, ?_, hh0v⟩
          cases run with
          | nil => exact absurd rfl hrunne
          | cons x xs => simpa using hh0
        · intro x hx
          rcases List.mem_append.mp hx with h | h
          · exact hrun_lt x h
          · simp only [List.mem_singleton] at h
            subst h
            omega
      · intro kc' hkc' b hb
        obtain rfl : kc = kc' := by simpa using hkc'
        exact hkey b hb
      · intro kc' hkc' k b hb
        obtain rfl : kc = kc' := by simpa using hkc'
        exact hklt k b hb
      · intro k b hb
        obtain ⟨run', hne', hb', hinf', hhead', hlt'⟩ := hInv.tab_case _ _ hb
        exact ⟨run', hne', hb',
          hinf'.trans (List.prefix_append P [r]).isInfix, hhead', hlt'⟩

theorem inv_fold (i : ℤ) (hi : 0 < i) (R : List CRec) :
    ∀ (P : List CRec) (st : AggSt), InvSt i P st →
      InvSt i (P ++ R) (R.foldl (stepIn i) st) := by
  induction R with
  | nil => intro P st h; simpa using h
  | cons r R' ih =>
    intro P st hInv
    have h2 := ih (P ++ [r]) (stepIn i st r) (inv_step i hi P r st hInv)
    simpa [List.foldl_cons] using h2

theorem inv_init (i : ℤ) : InvSt i [] ⟨[], none, initBar⟩ := by
  constructor
  · intro _; exact ⟨rfl, rfl, rfl⟩
  · intro kc h; simp at h
  · intro kc h; simp at h
  · intro kc h; simp at h
  · intro k b h; simp at h

theorem mkBar_opn (l : List CRec) (b : Bar) (q : ℚ) (h : b.opn = some q) :
    (l.foldl (fun b r => updBar b r.2.1 r.2.2) b).opn = some q := by
  induction l generalizing b with
  | nil => exact h
  | cons x xs ih =>
    simp only [List.foldl_cons]
    exact ih _ (by simp [updBar, h])

theorem mkBar_opn_ne (recs : List CRec) (h : recs ≠ []) :
    ∃ q, (mkBar recs).opn = some q := by
  match recs, h with
  | x :: xs, _ =>
    exact ⟨x.2.1, mkBar_opn xs (updBar initBar x.2.1 x.2.2) x.2.1 rfl⟩

theorem aggregate_mem (data : List CRec) (i s e : ℤ) (hi : 0 < i) (k : ℤ) (bar : Bar)
    (hmem : (k, bar) ∈ aggregate_ohlcv data i s e) :
    ∃ recs, recs ≠ [] ∧ bar = mkBar recs ∧
      recs <:+: (sortByTs data).filter (inWb s e) ∧
      (∃ h0, recs.head? = some h0 ∧ tsVal h0.1 = k) ∧
      ∀ r ∈ recs, tsVal r.1 < k + i := by
  have hInv := inv_fold i hi ((sortByTs data).filter (inWb s e)) []
    ⟨[], none, initBar⟩ (inv_init i)
  rw [List.nil_append] at hInv
  unfold aggregate_ohlcv at hmem
  rw [foldl_step_filter] at hmem
  set st := ((sortByTs data).filter (inWb s e)).foldl (stepIn i)
    ⟨[], none, initBar⟩ with hst
  unfold sealLast at hmem
  cases hist : st.istart with
  | none =>
    obtain ⟨htab, hcur, -⟩ := hInv.none_case hist
    rw [hcur] at hmem
    simp only [initBar] at hmem
    rw [htab] at hmem
    simp at hmem
  | some kc =>
    obtain ⟨done, run, hPdr, hrunne, hcur, hhead, hlt⟩ := hInv.cur_case kc hist
    obtain ⟨q, hq⟩ : ∃ q, st.cur.opn = some q := by
      rw [hcur]; exact mkBar_opn_ne _ hrunne
    rw [hq] at hmem
    simp only [hist, Option.getD_some] at hmem
    rw [dinsert_not_mem kc st.cur st.table (hInv.key_new kc hist)] at hmem
    rcases List.mem_append.mp hmem with h | h
    · obtain ⟨run', hne', hb', hinf', hhead', hlt'⟩ := hInv.tab_case k bar h
      exact ⟨run', hne', hb', hinf', hhead', hlt'⟩
    · simp only [List.mem_singleton, Prod.mk.injEq] at h
      obtain ⟨rfl, rfl⟩ := h
      exact ⟨run, hrunne, hcur, List.IsSuffix.isInfix ⟨done, hPdr.symm⟩, hhead, hlt⟩

theorem foldl_updBar_fields (l : List CRec) (a h lo c : ℚ) (v : ℤ) :
    l.foldl (fun b r => updBar b r.2.1 r.2.2) ⟨some a, XF.fin h, XF.fin lo, some c, v⟩ =
      ⟨some a, XF.fin ((l.map (fun r => r.2.1)).foldl max h),
       XF.fin ((l.map (fun r => r.2.1)).foldl min lo),
       some ((l.map (fun r => r.2.1)).getLastD c),
       v + (l.map (fun r => r.2.2)).sum⟩ := by
  induction l generalizing h lo c v with
  | nil => simp
  | cons x xs ih =>
    simp only [List.foldl_cons, List.map_cons]
    rw [show updBar ⟨some a, XF.fin h, XF.fin lo, some c, v⟩ x.2.1 x.2.2 =
        ⟨some a, XF.fin (max h x.2.1), XF.fin (min lo x.2.1), some x.2.1,
         v + x.2.2⟩ from rfl]
    rw [ih]
    simp only [List.foldl_cons, List.getLastD_cons, List.sum_cons]
    rw [add_assoc]

theorem mkBar_cons (x : CRec) (xs : List CRec) :
    mkBar (x :: xs) =
      ⟨some x.2.1, XF.fin ((xs.map (fun r => r.2.1)).foldl max x.2.1),
       XF.fin ((xs.map (fun r => r.2.1)).foldl min x.2.1),
       some ((xs.map (fun r => r.2.1)).getLastD x.2.1),
       x.2.2 + (xs.map (fun r => r.2.2)).sum⟩ := by
  show (x :: xs).foldl (fun b r => updBar b r.2.1 r.2.2) initBar = _
  rw [List.foldl_cons,
    show updBar initBar x.2.1 x.2.2 =
      ⟨some x.2.1, XF.fin x.2.1, XF.fin x.2.1, some x.2.1, 0 + x.2.2⟩ from rfl,
    foldl_updBar_fields]
  simp

theorem foldl_max_mem (l : List ℚ) : ∀ a : ℚ, l.foldl max a = a ∨ l.foldl max a ∈ l := by
  induction l with
  | nil => intro a; left; rfl
  | cons b l ih =>
    intro a
    rw [List.foldl_cons]
    rcases ih (max a b) with h | h
    · rcases max_choice a b with h2 | h2
      · left; rw [h, h2]
      · right; rw [h, h2]; exact List.mem_cons_self _ _
    · right; exact List.mem_cons_of_mem _ h

theorem le_foldl_max (l : List ℚ) :
    ∀ a : ℚ, a ≤ l.foldl max a ∧ ∀ q ∈ l, q ≤ l.foldl max a := by
  induction l with
  | nil => intro a; exact ⟨le_refl a, by simp⟩
  | cons b l ih =>
    intro a
    rw [List.foldl_cons]
    refine ⟨le_trans (le_max_left a b) (ih (max a b)).1, ?_⟩
    intro q hq
    rcases List.mem_cons.mp hq with rfl | hq
    · exact le_trans (le_max_right a q) (ih (max a q)).1
    · exact (ih (max a b)).2 q hq

theorem foldl_min_mem (l : List ℚ) : ∀ a : ℚ, l.foldl min a = a ∨ l.foldl min a ∈ l := by
  induction l with
  | nil => intro a; left; rfl
  | cons b l ih =>
    intro a
    rw [List.foldl_cons]
    rcases ih (min a b) with h | h
    · rcases min_choice a b with h2 | h2
      · left; rw [h, h2]
      · right; rw [h, h2]; exact List.mem_cons_self _ _
    · right; exact List.mem_cons_of_mem _ h

theorem foldl_min_le (l : List ℚ) :
    ∀ a : ℚ, l.foldl min a ≤ a ∧ ∀ q ∈ l, l.foldl min a ≤ q := by
  induction l with
  | nil => intro a; exact ⟨le_refl a, by simp⟩
  | cons b l ih =>
    intro a
    rw [List.foldl_cons]
    refine ⟨le_trans (ih (min a b)).1 (min_le_left a b), ?_⟩
    intro q hq
    rcases List.mem_cons.mp hq with rfl | hq
    · exact le_trans (ih (min a q)).1 (min_le_right a q)
    · exact (ih (min a b)).2 q hq

theorem getLast?_cons_getLastD (x : CRec) (xs : List CRec) :
    (x :: xs).getLast? = some (xs.getLastD x) := by
  induction xs generalizing x with
  | nil => rfl
  | cons y ys ih =>
    rw [List.getLast?_cons_cons, ih y, List.getLastD_cons]

theorem getLastD_map_price (xs : List CRec) :
    ∀ x : CRec, (xs.map (fun r => r.2.1)).getLastD x.2.1 = (xs.getLastD x).2.1 := by
  induction xs with
  | nil => intro x; rfl
  | cons y ys ih =>
    intro x
    rw [List.map_cons, List.getLastD_cons, List.getLastD_cons, ih y]

/-- C2, counterexample to the claim as stated: the program sorts by the
timestamp string, and `strptime` (hence the validator) accepts
non-zero-padded timestamps, for which string order and chronological
order differ.  With the two valid cleaned records below (the Jan 2 10:00
record parses before the Jan 3 10:00 one but its string sorts after it)
and a 2-day interval, the single sealed bar is keyed by Jan 3 10:00; the
records whose parsed timestamps lie in that bar's interval `[k, k + i)`
are exactly the Jan 3 record (price 200, size 2), which is also the
chronologically last record of the interval — yet the sealed bar has
`close = 150`, `low = 150` and `volume = 3`: `close` is not the price of
the chronologically last record of the interval, `low` is not the
minimum of the interval's prices, and `volume` is not the sum of its
sizes. -/
theorem ohlcv_bar_fields_cex :
    tsValid "2024-1-02 10:00:00.000000".data = true ∧
    tsValid "2024-01-03 10:00:00.000000".data = true ∧
    tsVal "2024-1-02 10:00:00.000000".data <
      tsVal "2024-01-03 10:00:00.000000".data ∧
    aggregate_ohlcv
        [("2024-1-02 10:00:00.000000".data, 150, 1),
         ("2024-01-03 10:00:00.000000".data, 200, 2)]
        172800000000 0 100000000000000000 =
      [(tsVal "2024-01-03 10:00:00.000000".data,
        ⟨some 200, XF.fin 200, XF.fin 150, some 150, 3⟩)] ∧
    spanRecs 172800000000 (tsVal "2024-01-03 10:00:00.000000".data)
        ((sortByTs
            [("2024-1-02 10:00:00.000000".data, 150, 1),
             ("2024-01-03 10:00:00.000000".data, 200, 2)]).filter
          (inWb 0 100000000000000000)) =
      [("2024-01-03 10:00:00.000000".data, 200, 2)] ∧
    Bar.close ⟨some 200, XF.fin 200, XF.fin 150, some 150, 3⟩ ≠ some 200 ∧
    Bar.low ⟨some 200, XF.fin 200, XF.fin 150, some 150, 3⟩ ≠ XF.fin 200 ∧
    Bar.volume ⟨some 200, XF.fin 200, XF.fin 150, some 150, 3⟩ ≠ 2 := by
  decide

/-- C2 (amended): with a strictly positive interval, every sealed bar
keyed `k` in the table produced by `aggregate_ohlcv` aggregates a
nonempty contiguous run of the string-sorted in-window records — the
records the loop assigns to that interval: the run's first record parses
to `k` and every record of the run parses strictly below `k + interval`;
`open` is the run's first price, `high`/`low` are the maximum/minimum of
the run's prices — in particular finite, so the ±infinity sentinels
never appear in a sealed bar — `close` is the price of the run's last
record in processing (string) order, and `volume` is the sum of the
run's sizes.  (`ohlcv_bar_fields_cex` shows the run follows the string
order, not the chronological order, so `close` need not be the
chronologically last in-interval record and the run need not contain
every record parsing into `[k, k + interval)`.) -/
theorem ohlcv_bar_fields_amended (data : List CRec) (i s e : ℤ) (hi : 0 < i)
    (k : ℤ) (bar : Bar) (hmem : (k, bar) ∈ aggregate_ohlcv data i s e) :
    ∃ recs, recs ≠ [] ∧
      recs <:+: (sortByTs data).filter (inWb s e) ∧
      (∃ h0, recs.head? = some h0 ∧ tsVal h0.1 = k ∧ bar.opn = some h0.2.1) ∧
      (∀ r ∈ recs, tsVal r.1 < k + i) ∧
      (∃ hq, bar.high = XF.fin hq ∧ hq ∈ recs.map (fun r => r.2.1) ∧
        ∀ q ∈ recs.map (fun r => r.2.1), q ≤ hq) ∧
      (∃ lq, bar.low = XF.fin lq ∧ lq ∈ recs.map (fun r => r.2.1) ∧
        ∀ q ∈ recs.map (fun r => r.2.1), lq ≤ q) ∧
      (∃ rl, recs.getLast? = some rl ∧ bar.close = some rl.2.1) ∧
      bar.volume = (recs.map (fun r => r.2.2)).sum := by
  obtain ⟨recs, hne, hbar, hinf, ⟨h0, hh0, hh0v⟩, hlt⟩ :=
    aggregate_mem data i s e hi k bar hmem
  cases recs with
  | nil => exact absurd rfl hne
  | cons x xs =>
    simp only [List.head?_cons, Option.some.injEq] at hh0
    subst hh0
    rw [hbar, mkBar_cons]
    refine ⟨x :: xs, hne, hinf, ⟨x, rfl, hh0v, rfl⟩, hlt, ?_, ?_, ?_, ?_⟩
    · refine ⟨(xs.map (fun r => r.2.1)).foldl max x.2.1, rfl, ?_, ?_⟩
      · rcases foldl_max_mem (xs.map (fun r => r.2.1)) x.2.1 with h | h
        · rw [h]; exact List.mem_cons_self _ _
        · exact List.mem_cons_of_mem _ h
      · intro q hq
        rcases List.mem_cons.mp hq with rfl | hq
        · exact (le_foldl_max _ x.2.1).1
        · exact (le_foldl_max _ x.2.1).2 q hq
    · refine ⟨(xs.map (fun r => r.2.1)).foldl min x.2.1, rfl, ?_, ?_⟩
      · rcases foldl_min_mem (xs.map (fun r => r.2.1)) x.2.1 with h | h
        · rw [h]; exact List.mem_cons_self _ _
        · exact List.mem_cons_of_mem _ h
      · intro q hq
        rcases List.mem_cons.mp hq with rfl | hq
        · exact (foldl_min_le _ x.2.1).1
        · exact (foldl_min_le _ x.2.1).2 q hq
    · exact ⟨xs.getLastD x, getLast?_cons_getLastD x xs,
        by rw [getLastD_map_price xs x]⟩
    · simp

theorem ohlcv_bar_fields_amended_witness :
    ((0:ℤ) < 60 ∧
      ((0:ℤ), (⟨some 100, XF.fin 100, XF.fin 100, some 100, 1⟩ : Bar)) ∈
        aggregate_ohlcv
          [("0001-01-01 00:00:00.000000".data, (100:ℚ), (1:ℤ))] 60 0 10) ∧
    (∃ recs, recs ≠ [] ∧
      recs <:+:
        (sortByTs [("0001-01-01 00:00:00.000000".data, (100:ℚ), (1:ℤ))]).filter
          (inWb 0 10) ∧
      (∃ h0, recs.head? = some h0 ∧ tsVal h0.1 = 0 ∧
        (⟨some 100, XF.fin 100, XF.fin 100, some 100, 1⟩ : Bar).opn =
          some h0.2.1) ∧
      (∀ r ∈ recs, tsVal r.1 < 0 + 60) ∧
      (∃ hq, (⟨some 100, XF.fin 100, XF.fin 100, some 100, 1⟩ : Bar).high =
          XF.fin hq ∧
        hq ∈ recs.map (fun r => r.2.1) ∧
        ∀ q ∈ recs.map (fun r => r.2.1), q ≤ hq) ∧
      (∃ lq, (⟨some 100, XF.fin 100, XF.fin 100, some 100, 1⟩ : Bar).low =
          XF.fin lq ∧
        lq ∈ recs.map (fun r => r.2.1) ∧
        ∀ q ∈ recs.map (fun r => r.2.1), lq ≤ q) ∧
      (∃ rl, recs.getLast? = some rl ∧
        (⟨some 100, XF.fin 100, XF.fin 100, some 100, 1⟩ : Bar).close =
          some rl.2.1) ∧
      (⟨some 100, XF.fin 100, XF.fin 100, some 100, 1⟩ : Bar).volume =
        (recs.map (fun r => r.2.2)).sum) :=
  ⟨⟨by decide, by decide⟩,
   ohlcv_bar_fields_amended
     [("0001-01-01 00:00:00.000000".data, (100:ℚ), (1:ℤ))] 60 0 10
     (by decide) 0 ⟨some 100, XF.fin 100, XF.fin 100, some 100, 1⟩ (by decide)⟩

/-- C8: `aggregate_ohlcv` is idempotent in the sense the spec states: its
only input mutation is the in-place sort of the record list, so a second
run — whose input is the sorted list left behind by the first — produces
the identical table. -/
theorem ohlcv_idempotent (data : List CRec) (i s e : ℤ) :
    aggregate_ohlcv (sortByTs data) i s e = aggregate_ohlcv data i s e := by
  unfold aggregate_ohlcv sortByTs
  rw [List.Sorted.insertionSort_eq (List.sorted_insertionSort tsLE data)]

theorem validate_single_reason_or_clean_witness :
    (∃ rec, (clean_and_validate_row [] ∅).1 = (some rec, [])) ∨
    (∃ m, m ∈ rejection_reasons ∧ (clean_and_validate_row [] ∅).1 = (none, [m])) :=
  validate_single_reason_or_clean [] ∅

theorem ohlcv_idempotent_witness :
    aggregate_ohlcv
        (sortByTs [("2024-01-01 09:30:50.000000".data, (105:ℚ), (2:ℤ)),
                   ("2024-01-01 09:30:05.000000".data, 100, 1)])
        60000000 0 100000000000000000 =
      aggregate_ohlcv
        [("2024-01-01 09:30:50.000000".data, (105:ℚ), (2:ℤ)),
         ("2024-01-01 09:30:05.000000".data, 100, 1)]
        60000000 0 100000000000000000 :=
  ohlcv_idempotent
    [("2024-01-01 09:30:50.000000".data, (105:ℚ), (2:ℤ)),
     ("2024-01-01 09:30:05.000000".data, 100, 1)]
    60000000 0 100000000000000000

/-- C9: once a row's timestamp is non-empty, well-formatted and new, the
timestamp is inserted into the file's duplicate set regardless of the
price and size fields, so the insertion also happens when the row is then
rejected; a later row of the same file carrying that timestamp is
rejected with the duplicate message. -/
theorem duplicate_inserted_before_price_checks (t ps ss : Str) (u : Finset Str)
    (h1 : t ≠ []) (h2 : tsValid t = true) (h3 : t ∉ u) :
    (clean_and_validate_row [t, ps, ss] u).2 = insert t u ∧
    ∀ ps' ss',
      (clean_and_validate_row [t, ps', ss']
          ((clean_and_validate_row [t, ps, ss] u).2)).1 =
        (none, ["Duplicate timestamp"]) := by
  have hset : (clean_and_validate_row [t, ps, ss] u).2 = insert t u := by
    unfold clean_and_validate_row
    rcases h4 : parseFloat ps with _ | p
    · simp [h1, h2, h3, h4]
    · by_cases h5 : p ≤ 0
      · simp [h1, h2, h3, h4, h5]
      · by_cases h6 : p < 100
        · simp [h1, h2, h3, h4, h5, h6]
        · rcases h7 : parseInt ss with _ | sz
          · simp [h1, h2, h3, h4, h5, h6, h7]
          · by_cases h8 : sz < 0 <;> simp [h1, h2, h3, h4, h5, h6, h7, h8]
  refine ⟨hset, fun ps' ss' => ?_⟩
  rw [hset]
  unfold clean_and_validate_row
  simp [h1, h2, Finset.mem_insert_self t u]

theorem duplicate_inserted_before_price_checks_witness :
    ("2024-01-01 09:30:00.000000".data ≠ ([] : Str) ∧
     tsValid "2024-01-01 09:30:00.000000".data = true ∧
     "2024-01-01 09:30:00.000000".data ∉ (∅ : Finset Str)) ∧
    (clean_and_validate_row
        ["2024-01-01 09:30:00.000000".data, "abc".data, "1".data] ∅).2 =
      insert "2024-01-01 09:30:00.000000".data ∅ ∧
    (clean_and_validate_row
        ["2024-01-01 09:30:00.000000".data, "151.00".data, "5".data]
        ((clean_and_validate_row
            ["2024-01-01 09:30:00.000000".data, "abc".data, "1".data] ∅).2)).1 =
      (none, ["Duplicate timestamp"]) :=
  ⟨⟨by decide, by decide, by simp⟩,
   (duplicate_inserted_before_price_checks "2024-01-01 09:30:00.000000".data
      "abc".data "1".data ∅ (by decide) (by decide) (by simp)).1,
   (duplicate_inserted_before_price_checks "2024-01-01 09:30:00.000000".data
      "abc".data "1".data ∅ (by decide) (by decide) (by simp)).2
     "151.00".data "5".data⟩

/-- C7: a row whose parsed price is exactly 100 and which passes every
other check is accepted; the low-price rejection message is produced
exactly when the parsed price is strictly positive (the positivity check
runs first) and strictly below 100. -/
theorem price_floor_inclusive :
    (∀ t ps ss (u : Finset Str) (sz : ℤ), t ≠ [] → tsValid t = true → t ∉ u →
        parseFloat ps = some 100 → parseInt ss = some sz → 0 ≤ sz →
        (clean_and_validate_row [t, ps, ss] u).1 = (some (t, 100, sz), [])) ∧
    (∀ t ps ss (u : Finset Str),
        (clean_and_validate_row [t, ps, ss] u).1.2 = ["Price too low (below 100)"] ↔
          (t ≠ [] ∧ tsValid t = true ∧ t ∉ u ∧
           ∃ p, parseFloat ps = some p ∧ 0 < p ∧ p < 100)) := by
  constructor
  · intro t ps ss u sz h1 h2 h3 h4 h5 h6
    unfold clean_and_validate_row
    simp [h1, h2, h3, h4, h5, not_lt.mpr h6, show ¬ (100:ℚ) ≤ 0 by norm_num]
  · intro t ps ss u
    constructor
    · intro h
      by_cases h1 : t = []
      · rw [show (clean_and_validate_row [t, ps, ss] u).1.2 = ["Missing timestamp"] by
            unfold clean_and_validate_row; simp [h1]] at h
        exact absurd h (by decide)
      · by_cases h2 : tsValid t
        · by_cases h3 : t ∈ u
          · rw [show (clean_and_validate_row [t, ps, ss] u).1.2 = ["Duplicate timestamp"] by
                unfold clean_and_validate_row; simp [h1, h2, h3]] at h
            exact absurd h (by decide)
          · rcases h4 : parseFloat ps with _ | p
            · rw [show (clean_and_validate_row [t, ps, ss] u).1.2 = ["Invalid price value"] by
                  unfold clean_and_validate_row; simp [h1, h2, h3, h4]] at h
              exact absurd h (by decide)
            · by_cases h5 : p ≤ 0
              · rw [show (clean_and_validate_row [t, ps, ss] u).1.2 = ["Price must be positive"] by
                    unfold clean_and_validate_row; simp [h1, h2, h3, h4, h5]] at h
                exact absurd h (by decide)
              · by_cases h6 : p < 100
                · exact ⟨h1, h2, h3, p, rfl, not_le.mp h5, h6⟩
                · rcases h7 : parseInt ss with _ | sz
                  · rw [show (clean_and_validate_row [t, ps, ss] u).1.2 = ["Invalid size value"] by
                        unfold clean_and_validate_row; simp [h1, h2, h3, h4, h5, h6, h7]] at h
                    exact absurd h (by decide)
                  · by_cases h8 : sz < 0
                    · rw [show (clean_and_validate_row [t, ps, ss] u).1.2 =
                            ["Size must be non-negative"] by
                          unfold clean_and_validate_row
                          simp [h1, h2, h3, h4, h5, h6, h7, h8]] at h
                      exact absurd h (by decide)
                    · rw [show (clean_and_validate_row [t, ps, ss] u).1.2 = [] by
                          unfold clean_and_validate_row
                          simp [h1, h2, h3, h4, h5, h6, h7, h8]] at h
                      exact absurd h (by decide)
        · rw [show (clean_and_validate_row [t, ps, ss] u).1.2 = ["Invalid timestamp format"] by
              unfold clean_and_validate_row; simp [h1, h2]] at h
          exact absurd h (by decide)
    · rintro ⟨h1, h2, h3, p, h4, h5, h6⟩
      unfold clean_and_validate_row
      simp [h1, h2, h3, h4, not_le.mpr h5, h6]

unseal Rat.mul Rat.add Rat.inv Rat.sub Rat.ofScientific in
theorem price_floor_inclusive_witness :
    ("2024-01-01 09:30:00.000000".data ≠ ([] : Str) ∧
     tsValid "2024-01-01 09:30:00.000000".data = true ∧
     parseFloat "100.0".data = some 100 ∧ parseInt "5".data = some 5) ∧
    (clean_and_validate_row
        ["2024-01-01 09:30:00.000000".data, "100.0".data, "5".data] ∅).1 =
      (some ("2024-01-01 09:30:00.000000".data, 100, 5), []) ∧
    (clean_and_validate_row
        ["2024-01-01 09:30:00.000000".data, "99.99".data, "5".data] ∅).1.2 =
      ["Price too low (below 100)"] :=
  ⟨⟨by decide, by decide, by decide, by decide⟩,
   price_floor_inclusive.1 "2024-01-01 09:30:00.000000".data "100.0".data
     "5".data ∅ 5 (by decide) (by decide) (by simp) (by decide) (by decide)
     (by decide),
   (price_floor_inclusive.2 "2024-01-01 09:30:00.000000".data "99.99".data
       "5".data ∅).mpr
     ⟨by decide, by decide, by simp, 9999/100, by decide, by decide, by decide⟩⟩
